import Mathlib

/-!
Shallow embedding of `panic-semihosting` (`src/lib.rs`), a panic handler for
ARM Cortex-M firmware.  The single routine `panic_fmt` disables interrupts,
opens the semihosting host output channel via `hio::hstdout()`, writes the
panic report as a short sequence of segments with early exit on the first
write error, fires a breakpoint, and loops forever.

The embedding represents one invocation of `panic_fmt` as the finite trace of
observable events it performs.  The host debugger's behaviour (whether the
channel opens, which writes succeed) is an explicit parameter `Host`.  The
final `loop {}` — an infinite loop with no observable effect — is represented
by the terminal trace event `Event.hang`; the routine's `!` return type (it
never returns) corresponds to every trace ending in that event, with no
return event existing at all.
-/

/-- Semihosting channel identity. The crate's doc comment promises host
stderr; the code calls `hio::hstdout()`, the host stdout channel. -/
inductive Channel where
  | stdout
  | stderr
deriving DecidableEq, Repr

/-- Observable actions of one `panic_fmt` invocation.  `interruptEnable` is
included so that its absence from every trace is a statement, not a
triviality of the event alphabet; the code never performs it. -/
inductive Event where
  | interruptDisable
  | interruptEnable
  | openChannel (ch : Channel) (ok : Bool)
  | write (s : String) (ok : Bool)
  | bkpt
  | hang
deriving DecidableEq, Repr

/-- Panic payload as received by the `panic_fmt` lang item:
`args : core::fmt::Arguments` (modelled by the string it formats to —
always present at this boundary), source file, line and column (`u32`;
no arithmetic is performed on them, so `Nat` carries their decimal
rendering faithfully). -/
structure PanicPayload where
  message : String
  file : String
  line : Nat
  col : Nat
deriving DecidableEq, Repr

/-- Host-debugger environment: whether `hio::hstdout()` returns `Ok`, and
whether the i-th write call on the acquired handle succeeds. -/
structure Host where
  openOk : Bool
  writeOk : Nat → Bool

/-- The five write calls of the closure in `panic_fmt`, in source order:
`write_str "panicked at '"`, `write_fmt args`, `write_str "', "`,
`write_str file`, and `writeln!(hstdout, ":{line}:{col}")` which renders
`:` line `:` col and a terminating newline. -/
def segments (p : PanicPayload) : List String :=
  ["panicked at '", p.message, "', ", p.file,
   ":" ++ toString p.line ++ ":" ++ toString p.col ++ "\n"]

/-- Sequential writes with the `?` early-exit of the closure: the i-th
segment is attempted only if all earlier ones succeeded; a failed attempt is
recorded and nothing after it is attempted. -/
def writeAll (ok : Nat → Bool) : Nat → List String → List Event
  | _, [] => []
  | i, s :: rest =>
    if ok i then Event.write s true :: writeAll ok (i + 1) rest
    else [Event.write s false]

/-- Trace of one invocation of `panic_fmt` (src/lib.rs lines 70-93):
`interrupt::disable()`; `if let Ok(mut hstdout) = hio::hstdout()` then the
write closure with its result discarded by `.ok()`; `asm::bkpt()`;
`loop {}`. -/
def panic_fmt (h : Host) (p : PanicPayload) : List Event :=
  Event.interruptDisable ::
    Event.openChannel Channel.stdout h.openOk ::
      ((if h.openOk then writeAll h.writeOk 0 (segments p) else []) ++
        [Event.bkpt, Event.hang])

/-- Bytes actually delivered to the host console: the concatenation of the
successful writes, in order. -/
def emitted : List Event → String
  | [] => ""
  | Event.write s true :: tr => s ++ emitted tr
  | _ :: tr => emitted tr

/-- Segments for which a write call was issued (successful or not), in
order. -/
def attempted (tr : List Event) : List String :=
  tr.filterMap
    (fun e =>
      match e with
      | Event.write s _ => some s
      | _ => none)

/-- Effect of one event on the interrupt-mask state
(true = interrupts enabled). -/
def maskStep (m : Bool) (e : Event) : Bool :=
  match e with
  | Event.interruptDisable => false
  | Event.interruptEnable => true
  | _ => m

/-- Interrupt-mask state after a trace runs, starting from enabled. -/
def interruptsEnabledAfter (tr : List Event) : Bool :=
  tr.foldl maskStep true

/-- Host in which the channel opens and every write succeeds. -/
def allOk : Host := ⟨true, fun _ => true⟩

/-- The doc-comment example payload: `panic!("FOO")` at src/main.rs:6:5. -/
def fooPayload : PanicPayload := ⟨"FOO", "src/main.rs", 6, 5⟩

/-- Concatenation of a list of strings, in order. -/
def strConcat : List String → String
  | [] => ""
  | s :: ss => s ++ strConcat ss

/-- Prefix test on character lists. -/
def listHasPrefix : List Char → List Char → Bool
  | _, [] => true
  | [], _ :: _ => false
  | a :: as, b :: bs => a == b && listHasPrefix as bs

/-- Substring test on character lists: some suffix of the haystack starts
with the needle. -/
def listHasSub : List Char → List Char → Bool
  | [], needle => needle.isEmpty
  | a :: rest, needle => listHasPrefix (a :: rest) needle || listHasSub rest needle

/-- Substring test on strings. -/
def strHasSub (hay needle : String) : Bool :=
  listHasSub hay.data needle.data

/-! ### Helper lemmas about the trace combinators -/

lemma emitted_append (a b : List Event) :
    emitted (a ++ b) = emitted a ++ emitted b := by
  induction a with
  | nil => simp [emitted, String.empty_append]
  | cons e a ih =>
    cases e with
    | write s ok =>
      cases ok with
      | true => simp [emitted, ih, String.append_assoc]
      | false => simp [emitted, ih]
    | interruptDisable => simp [emitted, ih]
    | interruptEnable => simp [emitted, ih]
    | openChannel ch ok => simp [emitted, ih]
    | bkpt => simp [emitted, ih]
    | hang => simp [emitted, ih]

lemma emitted_map_true (ss : List String) :
    emitted (ss.map (fun s => Event.write s true)) = strConcat ss := by
  induction ss with
  | nil => rfl
  | cons s ss ih => simp [emitted, strConcat, ih]

lemma writeAll_all_true (ok : Nat → Bool) (hw : ∀ i, ok i = true) :
    ∀ (ss : List String) (i : Nat),
      writeAll ok i ss = ss.map (fun s => Event.write s true) := by
  intro ss
  induction ss with
  | nil => intro i; rfl
  | cons s rest ih => intro i; simp [writeAll, hw, ih]

lemma mem_writeAll (ok : Nat → Bool) :
    ∀ (ss : List String) (i : Nat) (e : Event),
      e ∈ writeAll ok i ss → ∃ s b, e = Event.write s b := by
  intro ss
  induction ss with
  | nil => intro i e he; simp [writeAll] at he
  | cons s rest ih =>
    intro i e he
    simp only [writeAll] at he
    by_cases hc : ok i = true
    · rw [if_pos hc] at he
      rcases List.mem_cons.mp he with h1 | h1
      · exact ⟨s, true, h1⟩
      · exact ih (i + 1) e h1
    · rw [if_neg hc] at he
      exact ⟨s, false, List.mem_singleton.mp he⟩

lemma emitted_all_ok (h : Host) (p : PanicPayload)
    (hopen : h.openOk = true) (hw : ∀ i, h.writeOk i = true) :
    emitted (panic_fmt h p) =
      "panicked at '" ++ p.message ++ "', " ++ p.file ++ ":" ++
        toString p.line ++ ":" ++ toString p.col ++ "\n" := by
  simp [panic_fmt, hopen, writeAll_all_true h.writeOk hw, segments, emitted,
    emitted_append, emitted_map_true, strConcat, String.append_assoc,
    String.append_empty]

lemma attempted_trace (h : Host) (p : PanicPayload) :
    attempted (panic_fmt h p) =
      attempted (if h.openOk then writeAll h.writeOk 0 (segments p) else []) := by
  simp [panic_fmt, attempted, List.filterMap_append]

lemma attempted_writeAll (ok : Nat → Bool) :
    ∀ (ss : List String) (i : Nat),
      ∃ n, n ≤ ss.length ∧ attempted (writeAll ok i ss) = ss.take n := by
  intro ss
  induction ss with
  | nil => intro i; exact ⟨0, Nat.le_refl 0, rfl⟩
  | cons s rest ih =>
    intro i
    by_cases hc : ok i = true
    · obtain ⟨n, hn, hs⟩ := ih (i + 1)
      refine ⟨n + 1, Nat.succ_le_succ hn, ?_⟩
      simp only [writeAll, if_pos hc, attempted, List.filterMap_cons]
      simp only [attempted] at hs
      simp [hs, List.take_succ_cons]
    · refine ⟨1, Nat.succ_le_succ (Nat.zero_le _), ?_⟩
      simp [writeAll, if_neg hc, attempted]

/-! ### Claim theorems -/

/-- C1: for every payload, when the channel is acquired and every write
succeeds, the emitted bytes are exactly the line
`panicked at '<message>', <file>:<line>:<col>` followed by the terminating
newline: the message appears verbatim between the quote delimiters, then
file, line and column exactly as supplied. -/
theorem emitted_line_with_message (h : Host) (p : PanicPayload)
    (hopen : h.openOk = true) (hw : ∀ i, h.writeOk i = true) :
    emitted (panic_fmt h p) =
      "panicked at '" ++ p.message ++ "', " ++ p.file ++ ":" ++
        toString p.line ++ ":" ++ toString p.col ++ "\n" :=
  emitted_all_ok h p hopen hw

/-- Witness for C1: the payload {message: FOO, file: src/main.rs, line: 6,
col: 5} yields the line `panicked at 'FOO', src/main.rs:6:5`. -/
theorem emitted_line_with_message_witness :
    emitted (panic_fmt allOk fooPayload) =
      "panicked at 'FOO', src/main.rs:6:5\n" := by
  rw [emitted_line_with_message allOk fooPayload rfl (fun _ => rfl)]
  rfl

/-- C2: for every host behaviour and every payload the trace is, in strict
order, the interrupt-disable (the very first observable action), then the
channel-open attempt, then zero or more write events and nothing else, then
the breakpoint, then the infinite loop. -/
theorem panic_fmt_strict_sequence (h : Host) (p : PanicPayload) :
    ∃ ws : List Event,
      panic_fmt h p =
        Event.interruptDisable ::
          Event.openChannel Channel.stdout h.openOk ::
            (ws ++ [Event.bkpt, Event.hang]) ∧
      ∀ e ∈ ws, ∃ s b, e = Event.write s b := by
  refine ⟨if h.openOk then writeAll h.writeOk 0 (segments p) else [],
    rfl, ?_⟩
  intro e he
  cases hb : h.openOk with
  | false => rw [hb] at he; simp at he
  | true =>
    rw [hb] at he
    exact mem_writeAll h.writeOk (segments p) 0 e (by simpa using he)

/-- C3: for every host behaviour and every payload — degenerate ones
included — the trace ends with the breakpoint followed by the infinite-loop
event and nothing after it; there is no return event, so the routine never
returns to a caller. -/
theorem panic_fmt_never_returns (h : Host) (p : PanicPayload) :
    (∃ pre : List Event,
      panic_fmt h p = pre ++ [Event.bkpt, Event.hang]) ∧
    (panic_fmt h p).getLast? = some Event.hang := by
  constructor
  · exact ⟨Event.interruptDisable ::
      Event.openChannel Channel.stdout h.openOk ::
        (if h.openOk then writeAll h.writeOk 0 (segments p) else []), rfl⟩
  · have hdec : panic_fmt h p =
        (Event.interruptDisable ::
          Event.openChannel Channel.stdout h.openOk ::
            ((if h.openOk then writeAll h.writeOk 0 (segments p) else []) ++
              [Event.bkpt])) ++ [Event.hang] := by
      simp [panic_fmt]
    rw [hdec, List.getLast?_concat]

/-- C4: if `hio::hstdout()` fails, the trace is exactly interrupt-disable,
the failed open, the breakpoint and the infinite loop: nothing is emitted,
no write is attempted (no retry, no alternate path), and the breakpoint and
loop still happen; no error event exists to propagate. -/
theorem open_failure_no_output (h : Host) (p : PanicPayload)
    (hfail : h.openOk = false) :
    panic_fmt h p =
      [Event.interruptDisable, Event.openChannel Channel.stdout false,
       Event.bkpt, Event.hang] ∧
    emitted (panic_fmt h p) = "" ∧
    attempted (panic_fmt h p) = [] := by
  refine ⟨by simp [panic_fmt, hfail], ?_, ?_⟩
  · simp [panic_fmt, hfail, emitted]
  · simp [panic_fmt, hfail, attempted]

/-- Witness for C4: a host whose channel does not open, on the FOO payload. -/
theorem open_failure_no_output_witness :
    panic_fmt ⟨false, fun _ => true⟩ fooPayload =
      [Event.interruptDisable, Event.openChannel Channel.stdout false,
       Event.bkpt, Event.hang] ∧
    emitted (panic_fmt ⟨false, fun _ => true⟩ fooPayload) = "" ∧
    attempted (panic_fmt ⟨false, fun _ => true⟩ fooPayload) = [] :=
  open_failure_no_output ⟨false, fun _ => true⟩ fooPayload rfl

/-- C5: for every host behaviour — writes failing or not — the attempted
writes form a prefix of the report segments (each segment is attempted at
most once, in order: no retry), and the trace still ends with the breakpoint
and the infinite loop (the write error is discarded, never escalated: the
event alphabet carries no propagation and the closure's result is dropped
by `.ok()`). -/
theorem write_error_discarded (h : Host) (p : PanicPayload) :
    (∃ n, n ≤ (segments p).length ∧
      attempted (panic_fmt h p) = (segments p).take n) ∧
    ∃ pre : List Event, panic_fmt h p = pre ++ [Event.bkpt, Event.hang] := by
  constructor
  · cases hb : h.openOk with
    | false =>
      refine ⟨0, Nat.zero_le _, ?_⟩
      rw [attempted_trace h p, hb]
      simp [attempted]
    | true =>
      obtain ⟨n, hn, hs⟩ := attempted_writeAll h.writeOk (segments p) 0
      exact ⟨n, hn, by rw [attempted_trace, hb, if_pos rfl, hs]⟩
  · exact ⟨Event.interruptDisable ::
      Event.openChannel Channel.stdout h.openOk ::
        (if h.openOk then writeAll h.writeOk 0 (segments p) else []), rfl⟩

lemma listHasPrefix_append (y z : List Char) :
    listHasPrefix (y ++ z) y = true := by
  induction y with
  | nil => cases z <;> rfl
  | cons b bs ih => simp [listHasPrefix, ih]

lemma listHasSub_of_hasPrefix (hay needle : List Char)
    (h : listHasPrefix hay needle = true) : listHasSub hay needle = true := by
  cases hay with
  | nil =>
    cases needle with
    | nil => rfl
    | cons b bs => simp [listHasPrefix] at h
  | cons a rest => simp [listHasSub, h]

lemma listHasSub_append_left (x w n : List Char)
    (h : listHasSub w n = true) : listHasSub (x ++ w) n = true := by
  induction x with
  | nil => simpa using h
  | cons a x ih => simp [listHasSub, ih]

lemma listHasSub_decomp (hay x y z : List Char) (h : hay = x ++ (y ++ z)) :
    listHasSub hay y = true := by
  rw [h]
  exact listHasSub_append_left x (y ++ z) y
    (listHasSub_of_hasPrefix _ _ (listHasPrefix_append y z))

/-- C6 counterexample: the `panic_fmt` lang item always receives formatted
arguments, so the code has no absent-message path; at the nearest
representable payload — the empty message, at main.c:1:1 — the emitted line
does contain `main.c:1:1`, but it also contains the quoted (empty) message
segment between the two quote delimiters, contradicting "no quoted message
segment". -/
theorem empty_message_still_quoted :
    emitted (panic_fmt allOk ⟨"", "main.c", 1, 1⟩) =
      "panicked at '', main.c:1:1\n" ∧
    strHasSub (emitted (panic_fmt allOk ⟨"", "main.c", 1, 1⟩))
      "main.c:1:1" = true ∧
    strHasSub (emitted (panic_fmt allOk ⟨"", "main.c", 1, 1⟩)) "''" = true :=
  ⟨rfl, rfl, rfl⟩

/-- C6 amended: the code treats every payload's message as present (possibly
empty).  When the channel opens and all writes succeed, the emitted line
always contains `<file>:<line>:<col>` and always contains the quoted message
segment `'<message>'` — also when the message is empty, in which case the
quote delimiters enclose nothing. -/
theorem location_always_reported (h : Host) (p : PanicPayload)
    (hopen : h.openOk = true) (hw : ∀ i, h.writeOk i = true) :
    strHasSub (emitted (panic_fmt h p))
      (p.file ++ ":" ++ toString p.line ++ ":" ++ toString p.col) = true ∧
    strHasSub (emitted (panic_fmt h p)) ("'" ++ p.message ++ "'") = true := by
  have key := emitted_all_ok h p hopen hw
  constructor
  · simp only [strHasSub]
    rw [key]
    exact listHasSub_decomp _
      ("panicked at '" ++ p.message ++ "', ").data
      (p.file ++ ":" ++ toString p.line ++ ":" ++ toString p.col).data
      ("\n" : String).data
      (by simp [String.data_append])
  · simp only [strHasSub]
    rw [key]
    exact listHasSub_decomp _
      ("panicked at " : String).data
      ("'" ++ p.message ++ "'").data
      (", " ++ p.file ++ ":" ++ toString p.line ++ ":" ++
        toString p.col ++ "\n").data
      (by simp [String.data_append])

/-- Witness for the amended C6: at the empty-message payload the emitted
line contains `main.c:1:1` and the (empty) quoted segment. -/
theorem location_always_reported_witness :
    strHasSub (emitted (panic_fmt allOk ⟨"", "main.c", 1, 1⟩))
      ("main.c" ++ ":" ++ toString 1 ++ ":" ++ toString 1) = true ∧
    strHasSub (emitted (panic_fmt allOk ⟨"", "main.c", 1, 1⟩))
      ("'" ++ "" ++ "'") = true :=
  location_always_reported allOk ⟨"", "main.c", 1, 1⟩ rfl (fun _ => rfl)

/-- C7 (evaluating the code at the failing input): the channel-open event in
the trace targets `Channel.stdout` — the code calls `hio::hstdout()` — and
no stderr open ever occurs, although the crate's own doc comment says the
report goes to host stderr. -/
theorem open_targets_host_stdout :
    panic_fmt allOk fooPayload =
      [Event.interruptDisable, Event.openChannel Channel.stdout true,
       Event.write "panicked at '" true, Event.write "FOO" true,
       Event.write "', " true, Event.write "src/main.rs" true,
       Event.write ":6:5\n" true, Event.bkpt, Event.hang] ∧
    (panic_fmt allOk fooPayload).count
      (Event.openChannel Channel.stderr true) = 0 ∧
    (panic_fmt allOk fooPayload).count
      (Event.openChannel Channel.stderr false) = 0 :=
  ⟨rfl, rfl, rfl⟩

lemma tail_trace_mem (h : Host) (p : PanicPayload) (e : Event)
    (he : e ∈ Event.openChannel Channel.stdout h.openOk ::
        ((if h.openOk then writeAll h.writeOk 0 (segments p) else []) ++
          [Event.bkpt, Event.hang])) :
    e ≠ Event.interruptEnable ∧ e ≠ Event.interruptDisable := by
  rcases List.mem_cons.mp he with rfl | he
  · exact ⟨fun hcon => Event.noConfusion hcon,
      fun hcon => Event.noConfusion hcon⟩
  · rcases List.mem_append.mp he with hw | hbh
    · cases hb : h.openOk
      · rw [hb] at hw; simp at hw
      · rw [hb] at hw
        obtain ⟨s, b, rfl⟩ :=
          mem_writeAll h.writeOk (segments p) 0 e (by simpa using hw)
        exact ⟨fun hcon => Event.noConfusion hcon,
          fun hcon => Event.noConfusion hcon⟩
    · rcases (by simpa using hbh : e = Event.bkpt ∨ e = Event.hang) with
        rfl | rfl
      · exact ⟨fun hcon => Event.noConfusion hcon,
          fun hcon => Event.noConfusion hcon⟩
      · exact ⟨fun hcon => Event.noConfusion hcon,
          fun hcon => Event.noConfusion hcon⟩

lemma foldl_maskStep_false (tr : List Event)
    (h : ∀ e ∈ tr, e ≠ Event.interruptEnable) :
    tr.foldl maskStep false = false := by
  induction tr with
  | nil => rfl
  | cons e tr ih =>
    have he := h e (List.mem_cons_self e tr)
    have ht := ih (fun x hx => h x (List.mem_cons_of_mem e hx))
    cases e with
    | interruptEnable => exact absurd rfl he
    | interruptDisable => simpa [maskStep] using ht
    | openChannel ch ok => simpa [maskStep] using ht
    | write s ok => simpa [maskStep] using ht
    | bkpt => simpa [maskStep] using ht
    | hang => simpa [maskStep] using ht

/-- C8: the interrupt mask is written exactly once per invocation — the
disable is the first event of the trace, it occurs exactly once, no
enable event ever occurs, and after every non-empty prefix of the trace the
mask is still in the disabled state. -/
theorem interrupt_mask_written_once (h : Host) (p : PanicPayload) :
    (panic_fmt h p).head? = some Event.interruptDisable ∧
    (panic_fmt h p).count Event.interruptDisable = 1 ∧
    Event.interruptEnable ∉ panic_fmt h p ∧
    ∀ n : Nat,
      interruptsEnabledAfter ((panic_fmt h p).take (n + 1)) = false := by
  refine ⟨rfl, ?_, ?_, ?_⟩
  · show List.count Event.interruptDisable
      (Event.interruptDisable :: (Event.openChannel Channel.stdout h.openOk ::
        ((if h.openOk then writeAll h.writeOk 0 (segments p) else []) ++
          [Event.bkpt, Event.hang]))) = 1
    rw [List.count_cons_self]
    rw [List.count_eq_zero.mpr
      (fun hmem => (tail_trace_mem h p _ hmem).2 rfl)]
  · intro hmem
    rcases List.mem_cons.mp hmem with hcon | hmem2
    · exact Event.noConfusion hcon
    · exact (tail_trace_mem h p _ hmem2).1 rfl
  · intro n
    show ((panic_fmt h p).take (n + 1)).foldl maskStep true = false
    have htake : (panic_fmt h p).take (n + 1) =
        Event.interruptDisable ::
          ((Event.openChannel Channel.stdout h.openOk ::
            ((if h.openOk then writeAll h.writeOk 0 (segments p) else []) ++
              [Event.bkpt, Event.hang])).take n) :=
      List.take_succ_cons
    rw [htake, List.foldl_cons]
    exact foldl_maskStep_false _
      (fun e hx =>
        (tail_trace_mem h p e (List.take_subset n _ hx)).1)

lemma attempted_append (a b : List Event) :
    attempted (a ++ b) = attempted a ++ attempted b := by
  simp [attempted, List.filterMap_append]

lemma attempted_map_true (ss : List String) :
    attempted (ss.map (fun s => Event.write s true)) = ss := by
  induction ss with
  | nil => rfl
  | cons s ss ih =>
    simp only [attempted, List.filterMap_cons, List.map_cons] at ih ⊢
    simp [ih]

lemma writeAll_fail_at (ok : Nat → Bool) :
    ∀ (ss : List String) (i k : Nat) (hk : k < ss.length),
      ok (i + k) = false → (∀ j, j < k → ok (i + j) = true) →
      writeAll ok i ss =
        ((ss.take k).map (fun s => Event.write s true)) ++
          [Event.write (ss.get ⟨k, hk⟩) false] := by
  intro ss
  induction ss with
  | nil => intro i k hk; simp at hk
  | cons s rest ih =>
    intro i k hk hfail hpre
    cases k with
    | zero =>
      have h0 : ok i = false := by simpa using hfail
      simp [writeAll, h0]
    | succ m =>
      have h0 : ok i = true := by
        have := hpre 0 (Nat.succ_pos m)
        simpa using this
      have hfail2 : ok ((i + 1) + m) = false := by
        rwa [show (i + 1) + m = i + (m + 1) by omega]
      have hpre2 : ∀ j, j < m → ok ((i + 1) + j) = true := by
        intro j hj
        have := hpre (j + 1) (by omega)
        rwa [show i + (j + 1) = (i + 1) + j by omega] at this
      have hm : m < rest.length := by simpa using hk
      simp [writeAll, h0, ih (i + 1) m hm hfail2 hpre2, List.take_succ_cons]

/-- C9: the report is written as five segments (prefix, message,
separator, file, line-colon-column-newline); if the writes before index k
succeed and the k-th fails, exactly the first k+1 segments are attempted —
nothing after the failed one — and the bytes delivered to the host are the
concatenation of the first k segments only, a partial line. -/
theorem write_failure_short_circuits (h : Host) (p : PanicPayload)
    (k : Nat) (hopen : h.openOk = true) (hk : k < (segments p).length)
    (hfail : h.writeOk k = false)
    (hpre : ∀ j, j < k → h.writeOk j = true) :
    (segments p).length = 5 ∧
    attempted (panic_fmt h p) = (segments p).take (k + 1) ∧
    emitted (panic_fmt h p) = strConcat ((segments p).take k) := by
  have hfail0 : h.writeOk (0 + k) = false := by simpa using hfail
  have hpre0 : ∀ j, j < k → h.writeOk (0 + j) = true := by
    intro j hj; simpa using hpre j hj
  have hwa := writeAll_fail_at h.writeOk (segments p) 0 k hk hfail0 hpre0
  refine ⟨rfl, ?_, ?_⟩
  · rw [attempted_trace h p, hopen, if_pos rfl, hwa]
    rw [attempted_append, attempted_map_true]
    rw [show attempted [Event.write ((segments p).get ⟨k, hk⟩) false] =
      [(segments p).get ⟨k, hk⟩] from rfl]
    rw [List.take_succ, List.getElem?_eq_getElem hk]
    simp
  · show emitted (Event.interruptDisable ::
      (Event.openChannel Channel.stdout h.openOk ::
        ((if h.openOk then writeAll h.writeOk 0 (segments p) else []) ++
          [Event.bkpt, Event.hang]))) = strConcat ((segments p).take k)
    rw [hopen, if_pos rfl, hwa]
    simp only [emitted, emitted_append, emitted_map_true]
    simp [String.append_empty]

/-- Witness for C9: a host whose third write fails, on the FOO payload —
only the first three segments are attempted and the host console shows the
partial line `panicked at 'FOO`. -/
theorem write_failure_short_circuits_witness :
    attempted (panic_fmt ⟨true, fun i => decide (i < 2)⟩ fooPayload) =
      ["panicked at '", "FOO", "', "] ∧
    emitted (panic_fmt ⟨true, fun i => decide (i < 2)⟩ fooPayload) =
      "panicked at 'FOO" := by
  have hmain := write_failure_short_circuits
    ⟨true, fun i => decide (i < 2)⟩ fooPayload 2 rfl
    (by simp [segments]) rfl
    (fun j hj => by simp [decide_eq_true_eq]; omega)
  refine ⟨?_, ?_⟩
  · rw [hmain.2.1]; rfl
  · rw [hmain.2.2]; rfl

lemma digitChar_ne_newline (m : Nat) : Nat.digitChar m ≠ '\n' := by
  match m with
  | 0 => decide
  | 1 => decide
  | 2 => decide
  | 3 => decide
  | 4 => decide
  | 5 => decide
  | 6 => decide
  | 7 => decide
  | 8 => decide
  | 9 => decide
  | 10 => decide
  | 11 => decide
  | 12 => decide
  | 13 => decide
  | 14 => decide
  | 15 => decide
  | n + 16 =>
    rw [show Nat.digitChar (n + 16) = '*' from rfl]
    decide

lemma toDigitsCore_ne_newline :
    ∀ (fuel n : Nat) (acc : List Char), (∀ c ∈ acc, c ≠ '\n') →
      ∀ c ∈ Nat.toDigitsCore 10 fuel n acc, c ≠ '\n' := by
  intro fuel
  induction fuel with
  | zero => intro n acc hacc c hc; exact hacc c hc
  | succ fuel ih =>
    intro n acc hacc c hc
    simp only [Nat.toDigitsCore] at hc
    have hcons : ∀ x ∈ Nat.digitChar (n % 10) :: acc, x ≠ '\n' := by
      intro x hx
      rcases List.mem_cons.mp hx with rfl | hx
      · exact digitChar_ne_newline (n % 10)
      · exact hacc x hx
    by_cases hz : n / 10 = 0
    · rw [if_pos hz] at hc
      exact hcons c hc
    · rw [if_neg hz] at hc
      exact ih (n / 10) (Nat.digitChar (n % 10) :: acc) hcons c hc

lemma toString_nat_ne_newline (n : Nat) :
    ∀ c ∈ (toString n).data, c ≠ '\n' := by
  intro c hc
  exact toDigitsCore_ne_newline (n + 1) n [] (fun x hx => absurd hx
    (List.not_mem_nil x)) c hc

lemma toDigitsCore_ne_nil :
    ∀ (fuel n : Nat) (acc : List Char),
      Nat.toDigitsCore 10 (fuel + 1) n acc ≠ [] := by
  intro fuel
  induction fuel with
  | zero =>
    intro n acc
    simp only [Nat.toDigitsCore]
    split
    · simp
    · simp [Nat.toDigitsCore]
  | succ fuel ih =>
    intro n acc
    simp only [Nat.toDigitsCore]
    split
    · simp
    · exact ih (n / 10) (Nat.digitChar (n % 10) :: acc)

lemma toString_nat_data_ne_nil (n : Nat) : (toString n).data ≠ [] :=
  toDigitsCore_ne_nil n n []

/-- C10 counterexample: the message may itself contain a newline —
`panic!` with the text `a` newline `b` is a representable payload — and
then the successful report holds two newline characters, not one, so it is
not a complete single line on the host console. -/
theorem embedded_newline_not_single_line :
    emitted (panic_fmt allOk ⟨"a\nb", "src/main.rs", 6, 5⟩) =
      "panicked at 'a\nb', src/main.rs:6:5\n" ∧
    (emitted (panic_fmt allOk ⟨"a\nb", "src/main.rs", 6, 5⟩)).data.count
      '\n' = 2 ∧
    ¬ (emitted (panic_fmt allOk ⟨"a\nb", "src/main.rs", 6, 5⟩)).data.count
      '\n' = 1 :=
  ⟨rfl, by decide, by decide⟩

/-- C10 amended: when the channel opens and every write succeeds, the
emitted report always ends with exactly one trailing newline — its final
character is a newline and the character before that (the last digit of the
column) is not — and it is a complete single line, containing exactly one
newline in total, whenever neither the message nor the file name embeds a
newline of its own. -/
theorem report_trailing_newline (h : Host) (p : PanicPayload)
    (hopen : h.openOk = true) (hw : ∀ i, h.writeOk i = true) :
    (∃ body : List Char,
      (emitted (panic_fmt h p)).data = body ++ ['\n'] ∧
      body.getLast? ≠ some '\n') ∧
    ((∀ c ∈ p.message.data, c ≠ '\n') → (∀ c ∈ p.file.data, c ≠ '\n') →
      (emitted (panic_fmt h p)).data.count '\n' = 1) := by
  rw [emitted_all_ok h p hopen hw]
  constructor
  · refine ⟨("panicked at '" ++ p.message ++ "', " ++ p.file ++ ":" ++
      toString p.line ++ ":" ++ toString p.col).data, ?_, ?_⟩
    · rw [String.data_append]
    · have hne : (toString p.col).data ≠ [] := toString_nat_data_ne_nil p.col
      rw [String.data_append, List.getLast?_append,
        List.getLast?_eq_getLast _ hne]
      intro heq
      exact toString_nat_ne_newline p.col _ (List.getLast_mem hne)
        (Option.some.inj (by simpa using heq))
  · intro hm hf
    have hmsg : p.message.data.count '\n' = 0 :=
      List.count_eq_zero.mpr (fun hmem => hm '\n' hmem rfl)
    have hfile : p.file.data.count '\n' = 0 :=
      List.count_eq_zero.mpr (fun hmem => hf '\n' hmem rfl)
    have hline : (toString p.line).data.count '\n' = 0 :=
      List.count_eq_zero.mpr
        (fun hmem => toString_nat_ne_newline p.line '\n' hmem rfl)
    have hcol : (toString p.col).data.count '\n' = 0 :=
      List.count_eq_zero.mpr
        (fun hmem => toString_nat_ne_newline p.col '\n' hmem rfl)
    simp [String.data_append, List.count_append, hmsg, hfile, hline, hcol]

/-- Witness for the amended C10: the FOO payload in the all-success host —
its report is a body followed by exactly one trailing newline, and its
total newline count is one. -/
theorem report_trailing_newline_witness :
    (∃ body : List Char,
      (emitted (panic_fmt allOk fooPayload)).data = body ++ ['\n'] ∧
      body.getLast? ≠ some '\n') ∧
    (emitted (panic_fmt allOk fooPayload)).data.count '\n' = 1 := by
  have hmain := report_trailing_newline allOk fooPayload rfl (fun _ => rfl)
  exact ⟨hmain.1, hmain.2 (by decide) (by decide)⟩
